import Mathlib

/-!
Verification of the retry-and-extraction control loop of `main.py`.

The development shallowly embeds the three layers of the source file:

* `_get_python_code` (the code extractor built on
  `re.findall(r"```python\n(.*?)```", text, re.DOTALL)`),
* `_process_task` (the bounded-retry wrapper around the external
  `completion` call), and
* `run` (the per-task orchestration loop).

The external `completion` transport and `random.randint` jitter are
modelled as oracles indexed by the attempt number; `time.sleep` is
modelled by recording the slept durations.
-/

namespace Usaco

/-! ## Code extractor -/

/-- The canned fallback program (`FAILED_RESPONSE` in the source),
byte for byte. -/
def FAILED_RESPONSE : String :=
  "\nimport sys\n\ndef main():\n    input = sys.stdin.read\n    data = input().split()\n    \n    # do nothing, this is a canned response so that the eval for\n    # this task can silently fail\n\n    print(data)\n\nif __name__ == \"__main__\":\n    main()\n"

/-- The literal opening fence of `REGEX_FOR_PY_CODE_EXTRACTION`:
the pattern `r"```python\n(.*?)```"` starts with the literal text
three backticks, `python`, newline. -/
def openFence : List Char := "```python\n".toList

/-- The literal closing fence of the pattern: three backticks. -/
def closeFence : List Char := "```".toList

/-- Semantics of the lazy group `(.*?)` followed by the closing fence,
under `re.DOTALL`: the capture extends to the earliest position where
the closing fence matches.  Returns the capture together with the text
after the consumed closing fence, or `none` when no closing fence
occurs. -/
def findClose (l : List Char) : Option (List Char × List Char) :=
  if closeFence.isPrefixOf l then
    some ([], l.drop closeFence.length)
  else
    match l with
    | [] => none
    | c :: cs =>
      match findClose cs with
      | some (cap, rest) => some (c :: cap, rest)
      | none => none

/-- One scan of `re.findall`: try the pattern at the current position;
on a match, emit the capture and resume after the consumed match; on a
failure, advance one character.  The fuel argument bounds the recursion
by the length of the input (each step consumes at least one character),
keeping the definition structural. -/
def findAllAux : Nat → List Char → List (List Char)
  | 0, _ => []
  | _ + 1, [] => []
  | fuel + 1, x :: xs =>
    if openFence.isPrefixOf (x :: xs) then
      match findClose ((x :: xs).drop openFence.length) with
      | some (cap, rest) => cap :: findAllAux fuel rest
      | none => findAllAux fuel xs
    else findAllAux fuel xs

/-- Embedding of `re.findall(REGEX_FOR_PY_CODE_EXTRACTION, text, re.DOTALL)`. -/
def findAll (l : List Char) : List (List Char) := findAllAux l.length l

/-- Observable outcome of `_get_python_code`: it either returns a string
or raises `IndexError`. -/
inductive ExtractResult where
  | ok (code : String)
  | indexError
deriving DecidableEq

/-- Embedding of `_get_python_code` from the source.  `re.findall` always returns a
list, never `None`, so the `if matches is None` test in the source is always
false and its `return failure_response` branch is dead; an empty match
list instead makes `matches[0]` raise `IndexError`. -/
def _get_python_code (text : String) (failure_response : String) : ExtractResult :=
  let matchList := findAll text.toList  -- `matches` in the source
  if False then
    -- source: `if matches is None: return failure_response` (dead branch)
    ExtractResult.ok failure_response
  else
    match matchList with
    | [] => ExtractResult.indexError  -- `matches[0]` on an empty list
    | m :: _ => ExtractResult.ok (String.mk m)

/-! ## Retrying inference call (`_process_task`) -/

/-- The fields of the structured transport response that the control
flow inspects: the completion-token count under the `usage` key and the
message content of the first choice. -/
structure Response where
  completion_tokens : Nat
  content : String
deriving DecidableEq

/-- Outcome of one call of the external `completion` transport:
a structured response, a `RateLimitError`, or any other exception. -/
inductive TransportOutcome where
  | completed (response : Response)
  | rateLimitError (msg : String)
  | otherError (msg : String)
deriving DecidableEq

/-- The exception with which `_process_task` terminates, when it does
not return a response: the custom `NoContentGeneratedException`, a
re-raised `RateLimitError`, or a propagated unexpected exception. -/
inductive ProcessError where
  | noContentGenerated (content : String)
  | rateLimited (msg : String)
  | fatal (msg : String)
deriving DecidableEq

/-- In the source: `max_retries: int = 10`. -/
def max_retries : Nat := 10

/-- In the source: `retry_delay: int = 60` (seconds). -/
def retry_delay : Nat := 60

/-- The `for attempt in range(max_retries)` loop of `_process_task`.
`t i` is the transport outcome of the `i`-th call of `completion`
(0-based), `j i` the value `random.randint(1, 10)` drawn on attempt `i`.
Returns the result, the number of transport calls made, and the list of
slept delays in order.  `fuel` counts the loop iterations still allowed
(`_process_task` starts it at `mr`); the fuel-0 result models the
`for` loop falling through, which is unreachable for `mr > 0`. -/
def processLoop (t : Nat → TransportOutcome) (j : Nat → Nat)
    (rd mr : Nat) : Nat → Nat → Except ProcessError Response × Nat × List Nat
  | _, 0 => (Except.error (ProcessError.fatal "loop range exhausted"), 0, [])
  | attempt, fuel + 1 =>
    match t attempt with
    | TransportOutcome.completed r =>
      if r.completion_tokens = 0 then
        -- raise NoContentGeneratedException, caught by the first handler
        if attempt < mr - 1 then
          let out := processLoop t j rd mr (attempt + 1) fuel
          (out.1, out.2.1 + 1, (rd * (attempt + 1) + j attempt) :: out.2.2)
        else
          (Except.error (ProcessError.noContentGenerated r.content), 1, [])
      else
        (Except.ok r, 1, [])
    | TransportOutcome.rateLimitError m =>
      if attempt < mr - 1 then
        let out := processLoop t j rd mr (attempt + 1) fuel
        (out.1, out.2.1 + 1, (rd * (attempt + 1) + j attempt) :: out.2.2)
      else
        (Except.error (ProcessError.rateLimited m), 1, [])
    | TransportOutcome.otherError m =>
      (Except.error (ProcessError.fatal m), 1, [])

/-- Embedding of `_process_task` from the source.  The task id, model name, formatted
prompt and inference parameters flow only into logging and into the
external `completion` call, which the transport oracle `t` models, so
they do not appear here. -/
def _process_task (t : Nat → TransportOutcome) (j : Nat → Nat) :
    Except ProcessError Response × Nat × List Nat :=
  processLoop t j retry_delay max_retries 0 max_retries

/-! ## Orchestration (`run`) -/

/-- A task record; the orchestration reads the `description` field (it
flows into the formatted prompt, hence into the transport oracle) and
later writes the `response` field. -/
structure Task where
  description : String
deriving DecidableEq

/-- The two exceptions `run` itself can raise: the `FileNotFoundError`
for a missing prompt template (raised outside the per-task handler) and
a `KeyError` from `code[task_id]` in the final assignment loop. -/
inductive RunError where
  | templateMissing (path : String)
  | keyError (key : String)
deriving DecidableEq

/-- Python dict assignment `d[k] = v`: overwrite in place when the key
exists, else append (insertion order preserved). -/
def dictSet (d : List (String × String)) (k v : String) : List (String × String) :=
  match d with
  | [] => [(k, v)]
  | (k0, v0) :: rest =>
    if k0 = k then (k0, v) :: rest else (k0, v0) :: dictSet rest k v

/-- Python dict read `d.get(k)` (first matching key). -/
def dictGet : List (String × String) → String → Option String
  | [], _ => none
  | (k0, v0) :: rest, k => if k0 = k then some v0 else dictGet rest k

/-- The body of the per-task `try` block of `run`, reduced to the value
stored in `code[task_id]`: on a successful inference, the extracted
code (where a raised `IndexError` from `_get_python_code` is caught by
the per-task `except Exception` handler, like every other exception,
and turns into `FAILED_RESPONSE`); on any exception from
`_process_task`, the canned `FAILED_RESPONSE`. -/
def taskCode (t : Nat → TransportOutcome) (j : Nat → Nat) : String :=
  match (_process_task t j).1 with
  | Except.ok response =>
    match _get_python_code response.content FAILED_RESPONSE with
    | ExtractResult.ok py => py
    | ExtractResult.indexError => FAILED_RESPONSE
  | Except.error _ => FAILED_RESPONSE

/-- The first loop of `run`: per task, check the template file (outside
the `try` block, so a missing file aborts the whole run), then run the
guarded per-task body and store its code under the task id.  The
transport and jitter oracles are indexed by the task id. -/
def runLoop (files : String → Option String) (path : String)
    (transports : String → Nat → TransportOutcome)
    (jitters : String → Nat → Nat) :
    List (String × Task) → List (String × String) →
      Except RunError (List (String × String))
  | [], codeAcc => Except.ok codeAcc
  | (task_id, _task) :: rest, codeAcc =>
    match files path with
    | none => Except.error (RunError.templateMissing path)
    | some _prompt_template =>
      runLoop files path transports jitters rest
        (dictSet codeAcc task_id (taskCode (transports task_id) (jitters task_id)))

/-- The second loop of `run`:
set the `response` field of `input[task_id]` to `code[task_id]` for every task, in input
order.  A missing key raises `KeyError`. -/
def assignResponses :
    List (String × Task) → List (String × String) →
      Except RunError (List (String × Task × String))
  | [], _ => Except.ok []
  | (task_id, task) :: rest, codeDict =>
    match dictGet codeDict task_id with
    | none => Except.error (RunError.keyError task_id)
    | some c =>
      match assignResponses rest codeDict with
      | Except.ok out => Except.ok ((task_id, task, c) :: out)
      | Except.error e => Except.error e

/-- Embedding of `run` from the source: build the per-task code dict, then write
the `response` field of each task.  The returned association list pairs each
task id with its record and its new `response` value. -/
def run (input : List (String × Task)) (files : String → Option String)
    (prompt_template_path : String)
    (transports : String → Nat → TransportOutcome)
    (jitters : String → Nat → Nat) :
    Except RunError (List (String × Task × String)) :=
  match runLoop files prompt_template_path transports jitters input [] with
  | Except.error e => Except.error e
  | Except.ok codeDict => assignResponses input codeDict

/-- The per-task codes `run` records, as a pure map over the tasks. -/
def codesOf (transports : String → Nat → TransportOutcome)
    (jitters : String → Nat → Nat) (tasks : List (String × Task)) :
    List (String × String) :=
  tasks.map fun p => (p.1, taskCode (transports p.1) (jitters p.1))

/-! ## Concrete stubs used by the witnesses -/

/-- A transport stub that succeeds immediately with three completion
tokens. -/
def stubSuccess : Nat → TransportOutcome :=
  fun _ => TransportOutcome.completed ⟨3, "```python\nprint(1)\n```"⟩

/-- The response `stubSuccess` returns. -/
def respOk : Response := ⟨3, "```python\nprint(1)\n```"⟩

/-- A jitter oracle standing for the drawn `random.randint(1, 10)`
values. -/
def stubJitter : Nat → Nat := fun i => (i % 10) + 1

/-- A transport stub that raises `RateLimitError` `k` times and then
succeeds with response `r`. -/
def rlThenOk (k : Nat) (m : String) (r : Response) : Nat → TransportOutcome :=
  fun i => if i < k then TransportOutcome.rateLimitError m else TransportOutcome.completed r

/-- A transport stub that raises a non-rate-limit, non-empty-content
exception on every call. -/
def stubFatal : Nat → TransportOutcome :=
  fun _ => TransportOutcome.otherError "AccessDeniedException"

/-- A two-task batch for the end-to-end witnesses. -/
def tasks0 : List (String × Task) :=
  [("task1", ⟨"count the cows"⟩), ("task2", ⟨"sort the herd"⟩)]

/-- A filesystem oracle holding only the prompt template file. -/
def files0 : String → Option String :=
  fun p => if p = "prompt_templates/nova.txt" then some "Solve: \x7bquestion\x7d" else none

/-- A per-task transport oracle: the first task hits a fatal transport
error, the second succeeds. -/
def transports0 : String → Nat → TransportOutcome :=
  fun tid => if tid = "task1" then stubFatal else stubSuccess

/-- A per-task jitter oracle. -/
def jitters0 : String → Nat → Nat := fun _ => stubJitter

/-! ## Lemmas and claim theorems -/

theorem findClose_append (body c : List Char)
    (h : ∀ q, q < body.length → ¬ closeFence <+: (body ++ (closeFence ++ c)).drop q) :
    findClose (body ++ (closeFence ++ c)) = some (body, c) := by
  induction body with
  | nil =>
    rw [findClose.eq_def]
    simp [List.drop_left, List.prefix_append]
  | cons b bs ih =>
    have h0 : ¬ closeFence <+: (b :: (bs ++ (closeFence ++ c))) := by
      have hx := h 0 (by simp)
      simpa using hx
    have ih2 := ih (fun q hq => by
      have hx := h (q + 1) (by simpa using Nat.succ_lt_succ hq)
      simpa using hx)
    rw [findClose.eq_def]
    simp [h0, ih2]

theorem findAllAux_succ_cons (fuel : Nat) (x : Char) (xs : List Char) :
    findAllAux (fuel + 1) (x :: xs) =
      if openFence.isPrefixOf (x :: xs) then
        match findClose ((x :: xs).drop openFence.length) with
        | some (cap, rest) => cap :: findAllAux fuel rest
        | none => findAllAux fuel xs
      else findAllAux fuel xs := by
  rw [findAllAux.eq_def]

theorem findAllAux_succ_cons_neg (fuel : Nat) (x : Char) (xs : List Char)
    (h : ¬ openFence <+: (x :: xs)) :
    findAllAux (fuel + 1) (x :: xs) = findAllAux fuel xs := by
  rw [findAllAux_succ_cons, if_neg]
  simp [ List.isPrefixOf_iff_prefix, h]

theorem findAllAux_nil (fuel : Nat) :
    ∀ l : List Char, ¬ openFence <:+: l → findAllAux fuel l = [] := by
  induction fuel with
  | zero => intro l _; rfl
  | succ f ih =>
    intro l hl
    cases l with
    | nil => rfl
    | cons x xs =>
      have h0 : ¬ openFence <+: (x :: xs) := fun hp => by
        obtain ⟨t, ht⟩ := hp
        exact hl ⟨[], t, by simpa using ht⟩
      have hxs : ¬ openFence <:+: xs := fun hi => hl (List.infix_cons hi)
      rw [findAllAux_succ_cons_neg f x xs h0]
      exact ih xs hxs

theorem findAll_nil (l : List Char) (h : ¬ openFence <:+: l) : findAll l = [] :=
  findAllAux_nil l.length l h

theorem findAllAux_first (body c : List Char)
    (h2 : ∀ q, q < body.length → ¬ closeFence <+: (body ++ (closeFence ++ c)).drop q) :
    ∀ (a : List Char) (fuel : Nat),
      (a ++ (openFence ++ (body ++ (closeFence ++ c)))).length ≤ fuel →
      (∀ p, p < a.length →
        ¬ openFence <+: (a ++ (openFence ++ (body ++ (closeFence ++ c)))).drop p) →
      ∃ tl, findAllAux fuel (a ++ (openFence ++ (body ++ (closeFence ++ c)))) = body :: tl := by
  intro a
  induction a with
  | nil =>
    intro fuel hfuel _h1
    simp only [List.nil_append] at hfuel ⊢
    match fuel, hfuel with
    | fuel + 1, _ =>
      rcases hcons : openFence ++ (body ++ (closeFence ++ c)) with _ | ⟨y, ys⟩
      · exact absurd hcons (by simp [openFence])
      · rw [findAllAux_succ_cons]
        rw [if_pos (by rw [← hcons]; simp [ List.isPrefixOf_iff_prefix, List.prefix_append])]
        rw [show (y :: ys).drop openFence.length = body ++ (closeFence ++ c) by
          rw [← hcons]; exact List.drop_left openFence (body ++ (closeFence ++ c))]
        rw [findClose_append body c h2]
        exact ⟨findAllAux fuel c, rfl⟩
  | cons x xs ih =>
    intro fuel hfuel h1
    simp only [List.cons_append, List.length_cons] at hfuel h1 ⊢
    match fuel, hfuel with
    | fuel + 1, hfuel =>
      have h0 : ¬ openFence <+: (x :: (xs ++ (openFence ++ (body ++ (closeFence ++ c))))) := by
        have hx := h1 0 (by omega)
        simpa using hx
      rw [findAllAux_succ_cons_neg fuel _ _ h0]
      exact ih fuel (by simpa using Nat.le_of_succ_le_succ hfuel)
        (fun p hp => by
          have hx := h1 (p + 1) (by omega)
          simpa using hx)
/-- Claim C1 (code bug): the spec and the docstring in the source promise that
`_get_python_code` is total and returns the configured fallback unchanged on a
no-block input, but `re.findall` returns `[]` (never `None`), so the
`matches is None` guard never fires and `matches[0]` raises `IndexError`
instead.  The first conjunct evaluates the extractor at a concrete no-block
input; the second proves the divergence for every input without an opening
fence. -/
theorem extract_no_fence_raises_instead_of_fallback :
    _get_python_code "The model refused to answer." FAILED_RESPONSE
      = ExtractResult.indexError ∧
    ∀ text : String, ¬ openFence <:+: text.toList →
      _get_python_code text FAILED_RESPONSE = ExtractResult.indexError := by
  constructor
  · rfl
  · intro text h
    simp only [_get_python_code, if_false]
    rw [findAll_nil text.toList h]

theorem extract_no_fence_witness :
    (¬ openFence <:+: ("print(1)".toList)) ∧
    _get_python_code "print(1)" FAILED_RESPONSE = ExtractResult.indexError :=
  ⟨by decide, extract_no_fence_raises_instead_of_fallback.2 "print(1)" (by decide)⟩

/-- Claim C4: for every input text containing at least one well-formed fenced
code block (an opening ````` ```python\n ````` fence at the first position
where one matches, a body free of the closing fence, then a closing fence),
the extractor returns exactly the captured inner text of the first block,
verbatim, for every trailing text `c` — so content after the second fence,
including later blocks, is never used. -/
theorem extract_first_fenced_block (text : String) (a body c : List Char) (fb : String)
    (htext : text.toList = a ++ (openFence ++ (body ++ (closeFence ++ c))))
    (h1 : ∀ p, p < a.length →
      ¬ openFence <+: (a ++ (openFence ++ (body ++ (closeFence ++ c)))).drop p)
    (h2 : ∀ q, q < body.length → ¬ closeFence <+: (body ++ (closeFence ++ c)).drop q) :
    _get_python_code text fb = ExtractResult.ok (String.mk body) := by
  obtain ⟨tl, htl⟩ := findAllAux_first body c h2 a
    (a ++ (openFence ++ (body ++ (closeFence ++ c)))).length (le_refl _) h1
  simp only [_get_python_code, if_false, htext]
  rw [show findAll (a ++ (openFence ++ (body ++ (closeFence ++ c))))
      = findAllAux (a ++ (openFence ++ (body ++ (closeFence ++ c)))).length
          (a ++ (openFence ++ (body ++ (closeFence ++ c)))) from rfl]
  rw [htl]

theorem extract_first_fenced_block_witness :
    ("Sure! ```python\nprint(1)\n``` then ```python\nother()\n``` end".toList
        = "Sure! ".toList ++ (openFence ++ ("print(1)\n".toList ++ (closeFence ++ " then ```python\nother()\n``` end".toList)))) ∧
    _get_python_code "Sure! ```python\nprint(1)\n``` then ```python\nother()\n``` end" FAILED_RESPONSE
      = ExtractResult.ok "print(1)\n" :=
  ⟨by decide,
    extract_first_fenced_block _ ("Sure! ".toList) ("print(1)\n".toList)
      (" then ```python\nother()\n``` end".toList) FAILED_RESPONSE
      (by decide) (by decide) (by decide)⟩

/-- Claim C10: the regex recognises only blocks opened by the exact fence
```` ```python ```` followed by a newline: any text without that ten-character
sequence — in particular fences tagged with another language, untagged
fences, or a differently capitalised tag — produces no match, and the
no-match behaviour of the extractor applies. -/
theorem extract_only_python_tagged_fences :
    (∀ text : String, ¬ openFence <:+: text.toList → findAll text.toList = []) ∧
    findAll "```javascript\nconsole.log(1);\n```".toList = [] ∧
    findAll "```\nprint(1)\n```".toList = [] ∧
    findAll "```Python\nprint(1)\n```".toList = [] :=
  ⟨fun text h => findAll_nil text.toList h, by decide, by decide, by decide⟩

theorem extract_only_python_tagged_fences_witness :
    (¬ openFence <:+: "```ruby\nputs 1\n```".toList) ∧
    findAll "```ruby\nputs 1\n```".toList = [] :=
  ⟨by decide, extract_only_python_tagged_fences.1 _ (by decide)⟩
theorem pl_zero (t : Nat → TransportOutcome) (j : Nat → Nat) (rd mr a : Nat) :
    processLoop t j rd mr a 0
      = (Except.error (ProcessError.fatal "loop range exhausted"), 0, []) := rfl

theorem pl_completed_pos (t : Nat → TransportOutcome) (j : Nat → Nat) (rd mr a f : Nat)
    (r : Response) (h : t a = TransportOutcome.completed r) (hz : r.completion_tokens ≠ 0) :
    processLoop t j rd mr a (f + 1) = (Except.ok r, 1, []) := by
  rw [processLoop.eq_def]
  simp [h, hz]

theorem pl_completed_zero_retry (t : Nat → TransportOutcome) (j : Nat → Nat) (rd mr a f : Nat)
    (r : Response) (h : t a = TransportOutcome.completed r) (hz : r.completion_tokens = 0)
    (hlt : a < mr - 1) :
    processLoop t j rd mr a (f + 1)
      = ((processLoop t j rd mr (a + 1) f).1,
         (processLoop t j rd mr (a + 1) f).2.1 + 1,
         (rd * (a + 1) + j a) :: (processLoop t j rd mr (a + 1) f).2.2) := by
  rw [processLoop.eq_def]
  simp [h, hz, hlt]

theorem pl_completed_zero_last (t : Nat → TransportOutcome) (j : Nat → Nat) (rd mr a f : Nat)
    (r : Response) (h : t a = TransportOutcome.completed r) (hz : r.completion_tokens = 0)
    (hge : ¬ a < mr - 1) :
    processLoop t j rd mr a (f + 1)
      = (Except.error (ProcessError.noContentGenerated r.content), 1, []) := by
  rw [processLoop.eq_def]
  simp [h, hz, hge]

theorem pl_rl_retry (t : Nat → TransportOutcome) (j : Nat → Nat) (rd mr a f : Nat)
    (m : String) (h : t a = TransportOutcome.rateLimitError m) (hlt : a < mr - 1) :
    processLoop t j rd mr a (f + 1)
      = ((processLoop t j rd mr (a + 1) f).1,
         (processLoop t j rd mr (a + 1) f).2.1 + 1,
         (rd * (a + 1) + j a) :: (processLoop t j rd mr (a + 1) f).2.2) := by
  rw [processLoop.eq_def]
  simp [h, hlt]

theorem pl_rl_last (t : Nat → TransportOutcome) (j : Nat → Nat) (rd mr a f : Nat)
    (m : String) (h : t a = TransportOutcome.rateLimitError m) (hge : ¬ a < mr - 1) :
    processLoop t j rd mr a (f + 1)
      = (Except.error (ProcessError.rateLimited m), 1, []) := by
  rw [processLoop.eq_def]
  simp [h, hge]

theorem pl_other (t : Nat → TransportOutcome) (j : Nat → Nat) (rd mr a f : Nat)
    (m : String) (h : t a = TransportOutcome.otherError m) :
    processLoop t j rd mr a (f + 1) = (Except.error (ProcessError.fatal m), 1, []) := by
  rw [processLoop.eq_def]
  simp [h]
theorem pl_attempts_pos (t : Nat → TransportOutcome) (j : Nat → Nat) (rd mr a f : Nat)
    (hf : 0 < f) : 1 ≤ (processLoop t j rd mr a f).2.1 := by
  match f, hf with
  | f + 1, _ =>
    cases ht : t a with
    | completed r =>
      by_cases hz : r.completion_tokens = 0
      · by_cases hlt : a < mr - 1
        · rw [pl_completed_zero_retry t j rd mr a f r ht hz hlt]; simp
        · rw [pl_completed_zero_last t j rd mr a f r ht hz hlt]
      · rw [pl_completed_pos t j rd mr a f r ht hz]
    | rateLimitError m =>
      by_cases hlt : a < mr - 1
      · rw [pl_rl_retry t j rd mr a f m ht hlt]; simp
      · rw [pl_rl_last t j rd mr a f m ht hlt]
    | otherError m =>
      rw [pl_other t j rd mr a f m ht]

theorem pl_ok_inv (t : Nat → TransportOutcome) (j : Nat → Nat) (rd mr : Nat) :
    ∀ (f a : Nat) (r : Response), (processLoop t j rd mr a f).1 = Except.ok r →
      0 < r.completion_tokens ∧ 1 ≤ (processLoop t j rd mr a f).2.1 ∧
        t (a + (processLoop t j rd mr a f).2.1 - 1) = TransportOutcome.completed r := by
  intro f
  induction f with
  | zero =>
    intro a r h
    rw [pl_zero] at h
    exact absurd h (by simp)
  | succ f ih =>
    intro a r h
    cases ht : t a with
    | completed r0 =>
      by_cases hz : r0.completion_tokens = 0
      · by_cases hlt : a < mr - 1
        · rw [pl_completed_zero_retry t j rd mr a f r0 ht hz hlt] at h ⊢
          obtain ⟨h1, h2, h3⟩ := ih (a + 1) r h
          refine ⟨h1, by simp, ?_⟩
          simp only []
          rw [show a + ((processLoop t j rd mr (a + 1) f).2.1 + 1) - 1
              = a + 1 + (processLoop t j rd mr (a + 1) f).2.1 - 1 from by omega]
          exact h3
        · rw [pl_completed_zero_last t j rd mr a f r0 ht hz hlt] at h
          exact absurd h (by simp)
      · rw [pl_completed_pos t j rd mr a f r0 ht hz] at h ⊢
        simp only [] at h
        have hr : r0 = r := by
          have := h
          simpa using this
        subst hr
        refine ⟨by omega, by simp, by simpa using ht⟩
    | rateLimitError m =>
      by_cases hlt : a < mr - 1
      · rw [pl_rl_retry t j rd mr a f m ht hlt] at h ⊢
        obtain ⟨h1, h2, h3⟩ := ih (a + 1) r h
        refine ⟨h1, by simp, ?_⟩
        simp only []
        rw [show a + ((processLoop t j rd mr (a + 1) f).2.1 + 1) - 1
            = a + 1 + (processLoop t j rd mr (a + 1) f).2.1 - 1 from by omega]
        exact h3
      · rw [pl_rl_last t j rd mr a f m ht hlt] at h
        exact absurd h (by simp)
    | otherError m =>
      rw [pl_other t j rd mr a f m ht] at h
      exact absurd h (by simp)
theorem pl_prefix_retryable (t : Nat → TransportOutcome) (j : Nat → Nat) (rd mr : Nat) :
    ∀ (f a k : Nat), k + 1 < (processLoop t j rd mr a f).2.1 →
      (∃ r, t (a + k) = TransportOutcome.completed r ∧ r.completion_tokens = 0) ∨
      (∃ m, t (a + k) = TransportOutcome.rateLimitError m) := by
  intro f
  induction f with
  | zero =>
    intro a k hk
    rw [pl_zero] at hk
    exact absurd hk (by simp)
  | succ f ih =>
    intro a k hk
    cases ht : t a with
    | completed r0 =>
      by_cases hz : r0.completion_tokens = 0
      · by_cases hlt : a < mr - 1
        · rw [pl_completed_zero_retry t j rd mr a f r0 ht hz hlt] at hk
          simp only [] at hk
          cases k with
          | zero => exact Or.inl ⟨r0, by simpa using ht, hz⟩
          | succ k =>
            have := ih (a + 1) k (by omega)
            rw [show a + 1 + k = a + (k + 1) from by omega] at this
            exact this
        · rw [pl_completed_zero_last t j rd mr a f r0 ht hz hlt] at hk
          exact absurd hk (by simp)
      · rw [pl_completed_pos t j rd mr a f r0 ht hz] at hk
        exact absurd hk (by simp)
    | rateLimitError m =>
      by_cases hlt : a < mr - 1
      · rw [pl_rl_retry t j rd mr a f m ht hlt] at hk
        simp only [] at hk
        cases k with
        | zero => exact Or.inr ⟨m, by simpa using ht⟩
        | succ k =>
          have := ih (a + 1) k (by omega)
          rw [show a + 1 + k = a + (k + 1) from by omega] at this
          exact this
      · rw [pl_rl_last t j rd mr a f m ht hlt] at hk
        exact absurd hk (by simp)
    | otherError m =>
      rw [pl_other t j rd mr a f m ht] at hk
      exact absurd hk (by simp)

theorem pl_err_no_success (t : Nat → TransportOutcome) (j : Nat → Nat) (rd mr : Nat) :
    ∀ (f a k : Nat) (e : ProcessError),
      (processLoop t j rd mr a f).1 = Except.error e →
      k < (processLoop t j rd mr a f).2.1 →
      ∀ r : Response, t (a + k) = TransportOutcome.completed r → r.completion_tokens = 0 := by
  intro f
  induction f with
  | zero =>
    intro a k e _ hk
    rw [pl_zero] at hk
    exact absurd hk (by simp)
  | succ f ih =>
    intro a k e he hk
    cases ht : t a with
    | completed r0 =>
      by_cases hz : r0.completion_tokens = 0
      · by_cases hlt : a < mr - 1
        · rw [pl_completed_zero_retry t j rd mr a f r0 ht hz hlt] at he hk
          simp only [] at he hk
          cases k with
          | zero =>
            intro r hr
            rw [show a + 0 = a from by omega, ht] at hr
            have hrr : r0 = r := by simpa using hr
            exact hrr ▸ hz
          | succ k =>
            intro r hr
            rw [show a + (k + 1) = a + 1 + k from by omega] at hr
            exact ih (a + 1) k e he (by omega) r hr
        · rw [pl_completed_zero_last t j rd mr a f r0 ht hz hlt] at hk
          simp only [] at hk
          intro r hr
          have hk0 : k = 0 := by omega
          rw [hk0, show a + 0 = a from by omega, ht] at hr
          have hrr : r0 = r := by simpa using hr
          exact hrr ▸ hz
      · rw [pl_completed_pos t j rd mr a f r0 ht hz] at he
        exact absurd he (by simp)
    | rateLimitError m =>
      by_cases hlt : a < mr - 1
      · rw [pl_rl_retry t j rd mr a f m ht hlt] at he hk
        simp only [] at he hk
        cases k with
        | zero =>
          intro r hr
          rw [show a + 0 = a from by omega, ht] at hr
          exact absurd hr (by simp)
        | succ k =>
          intro r hr
          rw [show a + (k + 1) = a + 1 + k from by omega] at hr
          exact ih (a + 1) k e he (by omega) r hr
      · rw [pl_rl_last t j rd mr a f m ht hlt] at hk
        simp only [] at hk
        intro r hr
        have hk0 : k = 0 := by omega
        rw [hk0, show a + 0 = a from by omega, ht] at hr
        exact absurd hr (by simp)
    | otherError m =>
      rw [pl_other t j rd mr a f m ht] at hk
      simp only [] at hk
      intro r hr
      have hk0 : k = 0 := by omega
      rw [hk0, show a + 0 = a from by omega, ht] at hr
      exact absurd hr (by simp)

theorem pl_delays (t : Nat → TransportOutcome) (j : Nat → Nat) (rd mr : Nat) :
    ∀ (f a k : Nat), k < (processLoop t j rd mr a f).2.2.length →
      (processLoop t j rd mr a f).2.2.getD k 0 = rd * (a + k + 1) + j (a + k) := by
  intro f
  induction f with
  | zero =>
    intro a k hk
    rw [pl_zero] at hk
    exact absurd hk (by simp)
  | succ f ih =>
    intro a k hk
    cases ht : t a with
    | completed r0 =>
      by_cases hz : r0.completion_tokens = 0
      · by_cases hlt : a < mr - 1
        · rw [pl_completed_zero_retry t j rd mr a f r0 ht hz hlt] at hk ⊢
          simp only [] at hk ⊢
          cases k with
          | zero => simp
          | succ k =>
            rw [List.getD_cons_succ]
            have := ih (a + 1) k (by simpa using hk)
            rw [show a + 1 + k = a + (k + 1) from by omega] at this
            exact this
        · rw [pl_completed_zero_last t j rd mr a f r0 ht hz hlt] at hk
          exact absurd hk (by simp)
      · rw [pl_completed_pos t j rd mr a f r0 ht hz] at hk
        exact absurd hk (by simp)
    | rateLimitError m =>
      by_cases hlt : a < mr - 1
      · rw [pl_rl_retry t j rd mr a f m ht hlt] at hk ⊢
        simp only [] at hk ⊢
        cases k with
        | zero => simp
        | succ k =>
          rw [List.getD_cons_succ]
          have := ih (a + 1) k (by simpa using hk)
          rw [show a + 1 + k = a + (k + 1) from by omega] at this
          exact this
      · rw [pl_rl_last t j rd mr a f m ht hlt] at hk
        exact absurd hk (by simp)
    | otherError m =>
      rw [pl_other t j rd mr a f m ht] at hk
      exact absurd hk (by simp)
/-- Claim C2: with a transport stub that raises `RateLimitError` on every
call, `_process_task` makes exactly `max_retries` transport calls — not more,
not fewer — and then terminates by re-raising the last retryable cause (the
`RetryExhausted` outcome of the spec, wrapping the final `RateLimitError`). -/
theorem invoke_rate_limited_every_attempt (m : String) (j : Nat → Nat) :
    (_process_task (fun _ => TransportOutcome.rateLimitError m) j).1
        = Except.error (ProcessError.rateLimited m) ∧
    (_process_task (fun _ => TransportOutcome.rateLimitError m) j).2.1 = max_retries :=
  ⟨rfl, rfl⟩

/-- Claim C3: `_process_task` returns successfully exactly when one of the
attempts it makes yields a completion with a nonzero completion-token count
(first conjunct, both directions); a zero-token completion on the first
attempt is treated as retryable, so a second attempt is always made (second
conjunct); and a nonzero-token completion on the first attempt is returned
immediately, after exactly one transport call and with no sleep (third
conjunct). -/
theorem invoke_success_iff_nonzero_tokens :
    (∀ (t : Nat → TransportOutcome) (j : Nat → Nat) (r : Response),
        (_process_task t j).1 = Except.ok r ↔
          ∃ i, i < (_process_task t j).2.1 ∧ t i = TransportOutcome.completed r ∧
            0 < r.completion_tokens) ∧
    (∀ (t : Nat → TransportOutcome) (j : Nat → Nat) (r : Response),
        t 0 = TransportOutcome.completed r → r.completion_tokens = 0 →
        2 ≤ (_process_task t j).2.1) ∧
    (∀ (t : Nat → TransportOutcome) (j : Nat → Nat) (r : Response),
        t 0 = TransportOutcome.completed r → 0 < r.completion_tokens →
        _process_task t j = (Except.ok r, 1, [])) := by
  refine ⟨?_, ?_, ?_⟩
  · intro t j r
    constructor
    · intro h
      obtain ⟨h1, h2, h3⟩ := pl_ok_inv t j retry_delay max_retries max_retries 0 r h
      have h2x : 1 ≤ (_process_task t j).2.1 := h2
      refine ⟨(_process_task t j).2.1 - 1, by omega, ?_, h1⟩
      rw [show (_process_task t j).2.1 - 1
          = 0 + (processLoop t j retry_delay max_retries 0 max_retries).2.1 - 1 from by
        simp [_process_task]]
      exact h3
    · rintro ⟨i, hin, hti, htok⟩
      cases hres : (_process_task t j).1 with
      | error e =>
        have := pl_err_no_success t j retry_delay max_retries max_retries 0 i e hres
          (by simpa [_process_task] using hin) r (by simpa using hti)
        omega
      | ok r' =>
        obtain ⟨htok', hn1, hlast⟩ := pl_ok_inv t j retry_delay max_retries max_retries 0 r' hres
        by_cases hi : i + 1 < (_process_task t j).2.1
        · rcases pl_prefix_retryable t j retry_delay max_retries max_retries 0 i
              (by simpa [_process_task] using hi) with ⟨r0, ht0, hz0⟩ | ⟨m, htm⟩
          · rw [show (0:Nat) + i = i from by omega, hti] at ht0
            have hrr : r = r0 := by simpa using ht0
            rw [hrr] at htok
            omega
          · rw [show (0:Nat) + i = i from by omega, hti] at htm
            exact absurd htm (by simp)
        · have hie : i = (_process_task t j).2.1 - 1 := by omega
          rw [show (0:Nat) + (processLoop t j retry_delay max_retries 0 max_retries).2.1 - 1
              = (_process_task t j).2.1 - 1 from by simp [_process_task], ← hie, hti] at hlast
          have hrr : r = r' := by simpa using hlast
          rw [hrr]
  · intro t j r ht hz
    have heq : (_process_task t j).2.1
        = (processLoop t j retry_delay max_retries 0 (9 + 1)).2.1 := rfl
    rw [heq, pl_completed_zero_retry t j retry_delay max_retries 0 9 r ht hz (by decide)]
    show 2 ≤ (processLoop t j retry_delay max_retries (0 + 1) 9).2.1 + 1
    have h1 := pl_attempts_pos t j retry_delay max_retries (0 + 1) 9 (by omega)
    omega
  · intro t j r ht htok
    have heq : _process_task t j = processLoop t j retry_delay max_retries 0 (9 + 1) := rfl
    rw [heq, pl_completed_pos t j retry_delay max_retries 0 9 r ht (by omega)]

theorem invoke_success_iff_nonzero_tokens_witness :
    (stubSuccess 0 = TransportOutcome.completed respOk) ∧
    (0 < respOk.completion_tokens) ∧
    _process_task stubSuccess stubJitter = (Except.ok respOk, 1, []) :=
  ⟨rfl, by decide,
    invoke_success_iff_nonzero_tokens.2.2 stubSuccess stubJitter respOk rfl (by decide)⟩

/-- Claim C6: when the transport raises an exception that is neither the
rate-limit error nor the zero-token condition, `_process_task` propagates it
immediately: one transport call, no sleep, no further attempts, even on the
first attempt. -/
theorem invoke_fatal_propagates_immediately (t : Nat → TransportOutcome) (j : Nat → Nat)
    (m : String) (h : t 0 = TransportOutcome.otherError m) :
    _process_task t j = (Except.error (ProcessError.fatal m), 1, []) := by
  have heq : _process_task t j = processLoop t j retry_delay max_retries 0 (9 + 1) := rfl
  rw [heq, pl_other t j retry_delay max_retries 0 9 m h]

theorem invoke_fatal_witness :
    (stubFatal 0 = TransportOutcome.otherError "AccessDeniedException") ∧
    _process_task stubFatal stubJitter
      = (Except.error (ProcessError.fatal "AccessDeniedException"), 1, []) :=
  ⟨rfl, invoke_fatal_propagates_immediately stubFatal stubJitter "AccessDeniedException" rfl⟩

/-- Claim C7: the `k`-th sleep of an invocation (slept after the retryable
failure of attempt index `k`, for `k < max_retries - 1`) lasts exactly
`retry_delay * (k + 1) + j k` seconds, where `j k` is the jitter value
`random.randint(1, 10)` drawn independently on attempt `k`; and the source
sets `max_retries = 10` and `retry_delay = 60` seconds. -/
theorem retry_delay_formula_and_defaults :
    (∀ (t : Nat → TransportOutcome) (j : Nat → Nat) (k : Nat),
        k < (_process_task t j).2.2.length →
        (_process_task t j).2.2.getD k 0 = retry_delay * (k + 1) + j k) ∧
    max_retries = 10 ∧ retry_delay = 60 := by
  refine ⟨?_, rfl, rfl⟩
  intro t j k hk
  have := pl_delays t j retry_delay max_retries max_retries 0 k
    (by simpa [_process_task] using hk)
  simpa [_process_task] using this

theorem retry_delay_formula_witness :
    (0 < (_process_task (rlThenOk 2 "throttled" respOk) stubJitter).2.2.length) ∧
    (_process_task (rlThenOk 2 "throttled" respOk) stubJitter).2.2.getD 0 0
      = retry_delay * (0 + 1) + stubJitter 0 :=
  ⟨by decide,
    retry_delay_formula_and_defaults.1 (rlThenOk 2 "throttled" respOk) stubJitter 0 (by decide)⟩
theorem pl_rlThenOk (k : Nat) (m : String) (r : Response) (j : Nat → Nat) (rd mr : Nat)
    (hr : r.completion_tokens ≠ 0) :
    ∀ (f a : Nat), a ≤ k → k < mr → f = mr - a →
      processLoop (rlThenOk k m r) j rd mr a f
        = (Except.ok r, k - a + 1,
           (List.range (k - a)).map fun i => rd * (a + i + 1) + j (a + i)) := by
  intro f
  induction f with
  | zero => intro a h1 h2 h3; omega
  | succ f ih =>
    intro a h1 h2 h3
    by_cases hak : a = k
    · subst hak
      have ht : rlThenOk a m r a = TransportOutcome.completed r := by simp [rlThenOk]
      rw [pl_completed_pos (rlThenOk a m r) j rd mr a f r ht hr]
      simp
    · have halt : a < k := by omega
      have ht : rlThenOk k m r a = TransportOutcome.rateLimitError m := by
        simp [rlThenOk, halt]
      rw [pl_rl_retry (rlThenOk k m r) j rd mr a f m ht (by omega)]
      rw [ih (a + 1) (by omega) h2 (by omega)]
      have hn : k - (a + 1) + 1 + 1 = k - a + 1 := by omega
      have hd : (rd * (a + 1) + j a) ::
            ((List.range (k - (a + 1))).map fun i => rd * (a + 1 + i + 1) + j (a + 1 + i))
          = (List.range (k - a)).map fun i => rd * (a + i + 1) + j (a + i) := by
        have hk1 : k - a = (k - (a + 1)) + 1 := by omega
        rw [hk1, List.range_succ_eq_map, List.map_cons, List.map_map]
        congr 1
        refine List.map_congr_left fun i _hi => ?_
        simp only [Function.comp_apply]
        rw [show a + (i + 1) = a + 1 + i from by omega]
      simp only []
      rw [hn, hd]
  
/-- Claim C8: with a transport stub that raises `RateLimitError` exactly `k`
times (`k < max_retries`) and then succeeds with a nonzero completion-token
count, `_process_task` returns the success result, and the total slept time
is at least the sum of the first `k` backoff delays, each of which is at
least `retry_delay * (i + 1)` for attempt index `i`. -/
theorem invoke_k_rate_limits_then_success (k : Nat) (m : String) (r : Response)
    (j : Nat → Nat) (hk : k < max_retries) (hr : 0 < r.completion_tokens) :
    (_process_task (rlThenOk k m r) j).1 = Except.ok r ∧
    ((List.range k).map fun i => retry_delay * (i + 1)).sum
      ≤ (_process_task (rlThenOk k m r) j).2.2.sum := by
  have hrun := pl_rlThenOk k m r j retry_delay max_retries (by omega)
    max_retries 0 (by omega) hk (by omega)
  have heq : _process_task (rlThenOk k m r) j
      = processLoop (rlThenOk k m r) j retry_delay max_retries 0 max_retries := rfl
  rw [heq, hrun]
  refine ⟨rfl, ?_⟩
  simp only [Nat.sub_zero, Nat.zero_add]
  apply List.sum_le_sum
  intro i _hi
  exact Nat.le_add_right _ _

theorem invoke_k_rate_limits_witness :
    (2 < max_retries) ∧ (0 < respOk.completion_tokens) ∧
    (_process_task (rlThenOk 2 "Too many requests" respOk) stubJitter).1
      = Except.ok respOk ∧
    ((List.range 2).map fun i => retry_delay * (i + 1)).sum
      ≤ (_process_task (rlThenOk 2 "Too many requests" respOk) stubJitter).2.2.sum :=
  ⟨by decide, by decide,
    invoke_k_rate_limits_then_success 2 "Too many requests" respOk stubJitter
      (by decide) (by decide)⟩
theorem dictGet_append_right (d l2 : List (String × String)) (k : String)
    (h : dictGet d k = none) : dictGet (d ++ l2) k = dictGet l2 k := by
  induction d with
  | nil => rfl
  | cons p rest ih =>
    obtain ⟨k0, v0⟩ := p
    by_cases hk : k0 = k
    · rw [hk] at h
      simp [dictGet] at h
    · simp only [dictGet, hk, if_false, List.cons_append] at h ⊢
      exact ih h

theorem dictSet_of_none (d : List (String × String)) (k v : String)
    (h : dictGet d k = none) : dictSet d k v = d ++ [(k, v)] := by
  induction d with
  | nil => rfl
  | cons p rest ih =>
    obtain ⟨k0, v0⟩ := p
    by_cases hk : k0 = k
    · rw [hk] at h
      simp [dictGet] at h
    · simp only [dictGet, hk, if_false] at h
      simp only [dictSet, hk, if_false, List.cons_append]
      rw [ih h]

theorem codesOf_cons (transports : String → Nat → TransportOutcome)
    (jitters : String → Nat → Nat) (p : String × Task) (rest : List (String × Task)) :
    codesOf transports jitters (p :: rest)
      = (p.1, taskCode (transports p.1) (jitters p.1)) :: codesOf transports jitters rest := rfl

theorem runLoop_ok (files : String → Option String) (path : String)
    (transports : String → Nat → TransportOutcome) (jitters : String → Nat → Nat)
    (template : String) (hf : files path = some template) :
    ∀ (tasks : List (String × Task)) (acc : List (String × String)),
      (tasks.map Prod.fst).Nodup →
      (∀ p ∈ tasks, dictGet acc p.1 = none) →
      runLoop files path transports jitters tasks acc
        = Except.ok (acc ++ codesOf transports jitters tasks) := by
  intro tasks
  induction tasks with
  | nil => intro acc _ _; simp [runLoop, codesOf]
  | cons p rest ih =>
    intro acc hnd hacc
    obtain ⟨task_id, task⟩ := p
    rw [List.map_cons, List.nodup_cons] at hnd
    have hcur : dictGet acc task_id = none := hacc (task_id, task) (by simp)
    have hrest : ∀ q ∈ rest,
        dictGet (acc ++ [(task_id, taskCode (transports task_id) (jitters task_id))]) q.1
          = none := by
      intro q hq
      rw [dictGet_append_right acc _ q.1 (hacc q (by simp [hq]))]
      have hne : task_id ≠ q.1 := by
        intro he
        apply hnd.1
        rw [he]
        exact List.mem_map.mpr ⟨q, hq, rfl⟩
      simp [dictGet, hne]
    simp only [runLoop, hf]
    rw [dictSet_of_none acc task_id _ hcur]
    rw [ih _ hnd.2 hrest]
    rw [List.append_assoc]
    rfl

theorem dictGet_codesOf (transports : String → Nat → TransportOutcome)
    (jitters : String → Nat → Nat) :
    ∀ (tasks : List (String × Task)), (tasks.map Prod.fst).Nodup →
      ∀ p ∈ tasks, dictGet (codesOf transports jitters tasks) p.1
        = some (taskCode (transports p.1) (jitters p.1)) := by
  intro tasks
  induction tasks with
  | nil => intro _ p hp; exact absurd hp (by simp)
  | cons q rest ih =>
    intro hnd p hp
    obtain ⟨qid, qtask⟩ := q
    rw [List.map_cons, List.nodup_cons] at hnd
    rcases List.mem_cons.mp hp with hpq | hpr
    · subst hpq
      simp [codesOf_cons, dictGet]
    · have hne : qid ≠ p.1 := by
        intro he
        apply hnd.1
        rw [he]
        exact List.mem_map.mpr ⟨p, hpr, rfl⟩
      simp only [codesOf_cons, dictGet, hne, if_neg]
      exact ih hnd.2 p hpr

theorem assignResponses_ok (g : String × Task → String) :
    ∀ (tasks : List (String × Task)) (d : List (String × String)),
      (∀ p ∈ tasks, dictGet d p.1 = some (g p)) →
      assignResponses tasks d = Except.ok (tasks.map fun p => (p.1, p.2, g p)) := by
  intro tasks
  induction tasks with
  | nil => intro d _; rfl
  | cons p rest ih =>
    intro d h
    obtain ⟨task_id, task⟩ := p
    have h1 : dictGet d task_id = some (g (task_id, task)) := h (task_id, task) (by simp)
    simp only [assignResponses, h1]
    rw [ih d (fun q hq => h q (by simp [hq]))]
    rfl
/-- Claim C5: when the template file exists, `run` gives every task of the
input map exactly one `response`, namely the value computed from the inference
and extraction of that task alone — either genuine extracted code or the
canned `FAILED_RESPONSE` (second conjunct) — so an error raised while
processing one task (retry exhaustion, a fatal transport error, or the
`IndexError` of the extractor) yields the fallback for that task only while every
other task is still processed and receives a response of its own. -/
theorem run_sets_each_response_once :
    (∀ (input : List (String × Task)) (files : String → Option String)
        (path : String) (transports : String → Nat → TransportOutcome)
        (jitters : String → Nat → Nat) (template : String),
        files path = some template →
        (input.map Prod.fst).Nodup →
        run input files path transports jitters
          = Except.ok (input.map fun p =>
              (p.1, p.2, taskCode (transports p.1) (jitters p.1)))) ∧
    (∀ (t : Nat → TransportOutcome) (j : Nat → Nat),
        taskCode t j = FAILED_RESPONSE ∨
        ∃ r, (_process_task t j).1 = Except.ok r ∧
          _get_python_code r.content FAILED_RESPONSE
            = ExtractResult.ok (taskCode t j)) := by
  constructor
  · intro input files path transports jitters template hf hnd
    have h1 := runLoop_ok files path transports jitters template hf input []
      hnd (by simp [dictGet])
    have h2 := assignResponses_ok (fun p => taskCode (transports p.1) (jitters p.1))
      input (codesOf transports jitters input)
      (fun p hp => dictGet_codesOf transports jitters input hnd p hp)
    show (match runLoop files path transports jitters input [] with
      | Except.error e => Except.error e
      | Except.ok codeDict => assignResponses input codeDict) = _
    rw [h1]
    simpa using h2
  · intro t j
    cases hres : (_process_task t j).1 with
    | error e => exact Or.inl (by simp [taskCode, hres])
    | ok r =>
      cases hext : _get_python_code r.content FAILED_RESPONSE with
      | indexError => exact Or.inl (by simp [taskCode, hres, hext])
      | ok py => exact Or.inr ⟨r, rfl, by simp [taskCode, hres, hext]⟩

theorem run_sets_each_response_once_witness :
    (files0 "prompt_templates/nova.txt" = some "Solve: \x7bquestion\x7d") ∧
    (tasks0.map Prod.fst).Nodup ∧
    run tasks0 files0 "prompt_templates/nova.txt" transports0 jitters0
      = Except.ok [("task1", ⟨"count the cows"⟩, FAILED_RESPONSE),
                   ("task2", ⟨"sort the herd"⟩, "print(1)\n")] := by
  refine ⟨rfl, by decide, ?_⟩
  rw [run_sets_each_response_once.1 tasks0 files0 "prompt_templates/nova.txt"
      transports0 jitters0 "Solve: \x7bquestion\x7d" rfl (by decide)]
  rfl

/-- Claim C9: when the prompt template file is absent, `run` raises the
`FileNotFoundError` from outside the per-task handler on the first task, so
the whole run aborts and no task of the (nonempty) batch receives a
`response`. -/
theorem run_template_missing_aborts (input : List (String × Task))
    (files : String → Option String) (path : String)
    (transports : String → Nat → TransportOutcome) (jitters : String → Nat → Nat)
    (hmiss : files path = none) (hne : input ≠ []) :
    run input files path transports jitters
      = Except.error (RunError.templateMissing path) := by
  cases input with
  | nil => exact absurd rfl hne
  | cons p rest =>
    obtain ⟨task_id, task⟩ := p
    show (match runLoop files path transports jitters ((task_id, task) :: rest) [] with
      | Except.error e => Except.error e
      | Except.ok codeDict => assignResponses ((task_id, task) :: rest) codeDict) = _
    simp only [runLoop, hmiss]

theorem run_template_missing_witness :
    (tasks0 ≠ []) ∧
    run tasks0 (fun _ => none) "prompt_templates/nova.txt" transports0 jitters0
      = Except.error (RunError.templateMissing "prompt_templates/nova.txt") :=
  ⟨by decide,
    run_template_missing_aborts tasks0 (fun _ => none) "prompt_templates/nova.txt"
      transports0 jitters0 rfl (by decide)⟩

end Usaco
